import Mathlib

set_option autoImplicit false

namespace Userdata

/-! Shallow embedding of the directory-mirroring monitor (映射.py).
Filenames and paths are modelled as lists of characters, file contents as
lists of byte values (natural numbers below 256), and clock values as
rationals.  Filesystem-dependent observations (stat results, MIME guesses,
file contents, copy outcomes) are supplied as explicit inputs describing a
snapshot of the filesystem during one poll cycle. -/

/-- Python str.split with a single-dot separator: splits at every dot,
keeping empty segments. -/
def splitDot : List Char → List (List Char)
  | [] => [[]]
  | c :: rest =>
    let r := splitDot rest
    if c = '.' then [] :: r
    else
      match r with
      | h :: t => (c :: h) :: t
      | [] => [[c]]

/-- Characters matched by the hash-filename regular expression [a-fA-F0-9]. -/
def isHexChar (c : Char) : Bool :=
  ('0' ≤ c && c ≤ '9') || ('a' ≤ c && c ≤ 'f') || ('A' ≤ c && c ≤ 'F')

/-- RealTimeDirectoryTree._is_hash_filename: the part of the name before the
first dot is 20 or more characters long and purely hexadecimal. -/
def is_hash_filename (name : List Char) : Bool :=
  let base := (splitDot name).headD []
  decide (20 ≤ base.length) && !base.isEmpty && base.all isHexChar

/-- RealTimeDirectoryTree._format_filename: hash-like names are abbreviated to
the first three characters in square brackets, keeping the first
dot-separated extension segment. -/
def format_filename (name : List Char) : List Char :=
  if is_hash_filename name then
    let parts := splitDot name
    let base := parts.headD []
    let ex := if name.contains '.' && decide (1 < parts.length) then parts.getD 1 [] else []
    if 3 ≤ base.length then
      let hd := '[' :: (base.take 3 ++ [']'])
      if !ex.isEmpty then hd ++ '.' :: ex else hd
    else name
  else name

/-- The extension allow-list of RealTimeDirectoryTree._is_text_file, exactly
as written in the source (note the entry "md" without a leading dot). -/
def text_extensions : List (List Char) :=
  [".txt".toList, ".py".toList, ".js".toList, ".html".toList, ".css".toList,
   ".json".toList, ".xml".toList, "md".toList,
   ".yml".toList, ".yaml".toList, ".ini".toList, ".cfg".toList, ".conf".toList,
   ".log".toList, ".csv".toList,
   ".sh".toList, ".bat".toList, ".cmd".toList, ".ps1".toList, ".sql".toList,
   ".r".toList, ".m".toList, ".c".toList,
   ".cpp".toList, ".h".toList, ".hpp".toList, ".java".toList, ".kt".toList,
   ".swift".toList, ".go".toList, ".rs".toList]

/-- Bytes counted as printable by the sampling heuristic:
printable ASCII or tab, line feed, carriage return. -/
def printableByte (b : Nat) : Bool :=
  (32 ≤ b && b ≤ 126) || b = 9 || b = 10 || b = 13

/-- Number of printable bytes in a sample. -/
def printableCount (sample : List Nat) : Nat :=
  (sample.filter printableByte).length

/-- The truthiness-guarded MIME test of _is_text_file:
mime_type and mime_type.startswith of the text/ literal. -/
def mime_says_text (mime : Option (List Char)) : Bool :=
  match mime with
  | some m => !m.isEmpty && "text/".toList.isPrefixOf m
  | none => false

/-- RealTimeDirectoryTree._is_text_file with its filesystem-dependent pieces
supplied as inputs: ext is the lower-cased path suffix is compared against the
allow-list, mime is the mimetypes guess for the path, and content is the raw
file content (none models an I/O error opening or reading the file, which the
surrounding except-handler turns into False).  The sample is the first 1024
bytes; a zero-length sample makes the Python code divide by zero, an
exception the same handler turns into False, modelled by the explicit
zero-length branch. -/
def is_text_file (ext : List Char) (mime : Option (List Char))
    (content : Option (List Nat)) : Bool :=
  if text_extensions.contains (ext.map Char.toLower) then true
  else if mime_says_text mime then true
  else
    match content with
    | none => false
    | some bytes =>
      let sample := bytes.take 1024
      if sample.contains 0 then false
      else if sample.length = 0 then false
      else decide (4 * sample.length < 5 * printableCount sample)

/-- The classifier as the specification sentence for claim C4 states it:
allow-listed extension, or a MIME type starting with text/, or a sample with
no NUL byte and AT LEAST eighty percent printable bytes (the ratio being
defined only for a non-empty sample); an unreadable file is binary. -/
def spec_is_text (ext : List Char) (mime : Option (List Char))
    (content : Option (List Nat)) : Bool :=
  text_extensions.contains (ext.map Char.toLower) ||
  mime_says_text mime ||
  (match content with
   | none => false
   | some bytes =>
     let sample := bytes.take 1024
     !sample.isEmpty && !sample.contains 0 &&
       decide (4 * sample.length ≤ 5 * printableCount sample))

/-- Like spec_is_text but with the printable-byte threshold read strictly
(more than eighty percent), which is what the source computes. -/
def spec_is_text_strict (ext : List Char) (mime : Option (List Char))
    (content : Option (List Nat)) : Bool :=
  text_extensions.contains (ext.map Char.toLower) ||
  mime_says_text mime ||
  (match content with
   | none => false
   | some bytes =>
     let sample := bytes.take 1024
     !sample.isEmpty && !sample.contains 0 &&
       decide (4 * sample.length < 5 * printableCount sample))

/-! Tree-state model: per-path node metadata, status decay, line rendering. -/

/-- Node status values of the tree_data dictionary. -/
inductive Status
  | normal | new | modified | deleted | syncing | error
deriving DecidableEq, Repr

/-- Node kind values of the tree_data dictionary. -/
inductive NodeKind
  | file | dir
deriving DecidableEq, Repr

/-- A tree_data entry.  Directory entries carry no is_text key in the source;
reads default it to true, so the model stores true for directories. -/
structure Node where
  kind : NodeKind
  size : Nat
  status : Status
  is_text : Bool
deriving DecidableEq, Repr

/-- Paths and names are lists of characters (Python strings). -/
abbrev Path := List Char

/-- Dictionary lookup in an association list (first match). -/
def look {V : Type} : List (Path × V) → Path → Option V
  | [], _ => none
  | (k1, v) :: rest, k => if k1 = k then some v else look rest k

/-- Dictionary insert-or-replace, preserving Python dict insertion order:
an existing key keeps its position, a fresh key is appended at the end. -/
def mset {V : Type} : List (Path × V) → Path → V → List (Path × V)
  | [], k, v => [(k, v)]
  | (k1, v1) :: rest, k, v =>
    if k1 = k then (k, v) :: rest else (k1, v1) :: mset rest k v

/-- Dictionary key deletion. -/
def merase {V : Type} : List (Path × V) → Path → List (Path × V)
  | [], _ => []
  | (k1, v1) :: rest, k =>
    if k1 = k then merase rest k else (k1, v1) :: merase rest k

/-- Dictionary key list. -/
def mkeys {V : Type} (m : List (Path × V)) : List Path := m.map Prod.fst

/-- Change events: (change_type, file_path) pairs of the file_changes list. -/
inductive EvKind
  | new | modified | deleted
deriving DecidableEq, Repr

/-- One entry of the file_changes list. -/
structure Event where
  kind : EvKind
  path : Path
deriving DecidableEq, Repr

/-- Filesystem observations consumed by RealTimeDirectoryTree during one
update: existence, stat sizes, the text classifier, and the recursive
directory-size computation, all as functions of the path in the current
snapshot. -/
structure TreeFs where
  pexists : Path → Bool
  fileSize : Path → Nat
  isText : Path → Bool
  dirExists : Path → Bool
  dirSize : Path → Nat

/-- The per-event branch of RealTimeDirectoryTree.update_tree. -/
def apply_change (fs : TreeFs) (t : List (Path × Node)) (e : Event) :
    List (Path × Node) :=
  match e.kind with
  | .new =>
    mset t e.path
      ⟨.file, if fs.pexists e.path then fs.fileSize e.path else 0, .new,
        fs.isText e.path⟩
  | .modified =>
    match look t e.path with
    | some n => mset t e.path ⟨n.kind, fs.fileSize e.path, .modified, n.is_text⟩
    | none => t
  | .deleted =>
    match look t e.path with
    | some n => mset t e.path ⟨n.kind, n.size, .deleted, n.is_text⟩
    | none => t

/-- RealTimeDirectoryTree._update_directory_sizes: every entry whose path is
currently a directory on disk gets its size recomputed; the node kind stored
in the map is not consulted. -/
def update_dir_sizes (fs : TreeFs) (t : List (Path × Node)) :
    List (Path × Node) :=
  t.map (fun kv => if fs.dirExists kv.1 then (kv.1, { kv.2 with size := fs.dirSize kv.1 }) else kv)

/-- The decay step applied to a single node. -/
def decay_status (n : Node) : Node :=
  if n.status = .new ∨ n.status = .modified then { n with status := .normal } else n

/-- RealTimeDirectoryTree.update_tree: applies the change events, recomputes
directory sizes, and, when more than 5 seconds have passed since last_update,
reverts every transient new/modified status to normal at once and records the
decay time.  Returns the new tree_data and the new last_update.  Clock values
(Python time.time floats) are modelled as integers; only their differences
against the 5-second window and equality of stat signatures are ever used. -/
def update_tree (fs : TreeFs) (t : List (Path × Node)) (last_update : Int)
    (changes : List Event) (now : Int) : List (Path × Node) × Int :=
  let t1 := changes.foldl (apply_change fs) t
  let t2 := update_dir_sizes fs t1
  if 5 < now - last_update then
    (t2.map (fun kv => (kv.1, decay_status kv.2)), now)
  else (t2, last_update)

/-- The status icons of _get_tree_line. -/
def statusIcon : Status → List Char
  | .normal => "  ".toList
  | .new => "🆕".toList
  | .modified => "✏️ ".toList
  | .deleted => "🗑️ ".toList
  | .syncing => "🔄".toList
  | .error => "❌".toList

/-- The default node_info used by _get_tree_line for unknown paths. -/
def defaultNode : Node := ⟨.file, 0, .normal, true⟩

/-- Number of divisions performed by the _format_size loop, which divides by
1024 while the value is at least 1024 and fewer than three divisions have
happened.  Division by 1024 only shifts the binary exponent of the float, so
after i exact divisions the loop condition is size at least 1024 ^ (i + 1). -/
def sizeScaleCount (size : Nat) : Nat :=
  if 1024 * 1024 * 1024 ≤ size then 3
  else if 1024 * 1024 ≤ size then 2
  else if 1024 ≤ size then 1
  else 0

/-- Round half to even of the exact fraction a / b (b positive): the rounding
Python applies when formatting the scaled size with one decimal digit. -/
def roundHalfEvenDiv (a b : Nat) : Nat :=
  let f := a / b
  let r := a % b
  if 2 * r < b then f
  else if b < 2 * r then f + 1
  else if f % 2 = 0 then f else f + 1

/-- The unit names of _format_size. -/
def size_names : List (List Char) :=
  ["B".toList, "KB".toList, "MB".toList, "GB".toList]

/-- RealTimeDirectoryTree._format_size, with the float value size / 1024 ^ i
represented exactly as the fraction size * 10 / 1024 ^ i when rounding to one
decimal digit. -/
def format_size (size : Nat) : List Char :=
  if size = 0 then "0 B".toList
  else
    let i := sizeScaleCount size
    let n := roundHalfEvenDiv (size * 10) (1024 ^ i)
    (Nat.repr (n / 10)).toList ++ '.' :: (Nat.repr (n % 10)).toList
      ++ ' ' :: size_names.getD i []

/-- RealTimeDirectoryTree._get_tree_line: one rendered line for a path.  The
display name (path.name, supplied as name) is formatted by format_filename
for every node; the is_text flag only selects the type icon and whether the
bracketed annotation holds the size or repeats the display name. -/
def get_tree_line (t : List (Path × Node)) (pathStr name : Path)
    (depth : Nat) (is_last : Bool) (pfx : List Char) : List Char :=
  let display := format_filename name
  let node := (look t pathStr).getD defaultNode
  let sIcon := statusIcon node.status
  let ti_si : List Char × List Char :=
    match node.kind with
    | .dir => ("📁".toList, '[' :: (format_size node.size ++ [']']))
    | .file =>
      if node.is_text then ("📄".toList, '[' :: (format_size node.size ++ [']']))
      else ("🗃️".toList, '[' :: (display ++ [']']))
  let connector :=
    if depth = 0 then []
    else if is_last then pfx ++ "└─ ".toList
    else pfx ++ "├─ ".toList
  connector ++ sIcon ++ ti_si.1 ++ ' ' :: (display ++ ' ' :: ti_si.2)

/-! Encoding layer: the decode pipeline of _copy_file_with_encoding.
Code points are natural numbers; 0xFFFD is the replacement character. -/

/-- Valid continuation byte 0x80 to 0xBF. -/
def okCont (b : Nat) : Bool := 128 ≤ b && b ≤ 191

/-- Lower bound of the first continuation byte for a given lead byte
(UTF-8 shortest-form and code-point range restrictions). -/
def contLo (lead : Nat) : Nat :=
  if lead = 224 then 160 else if lead = 240 then 144 else 128

/-- Upper bound of the first continuation byte for a given lead byte
(surrogates excluded after 0xED, range capped after 0xF4). -/
def contHi (lead : Nat) : Nat :=
  if lead = 237 then 159 else if lead = 244 then 143 else 191

/-- Valid first continuation byte for the given lead byte. -/
def okCont1 (lead b : Nat) : Bool := contLo lead ≤ b && b ≤ contHi lead

/-- Strict UTF-8 decoding (Python bytes.decode with utf-8 and strict
errors): none on any invalid, truncated, overlong, surrogate or
out-of-range sequence. -/
def utf8DecStrict : List Nat → Option (List Nat)
  | [] => some []
  | b :: bs =>
    if b ≤ 127 then (utf8DecStrict bs).map (b :: ·)
    else if 194 ≤ b && b ≤ 223 then
      match bs with
      | b1 :: bs1 =>
        if okCont b1 then (utf8DecStrict bs1).map (((b - 192) * 64 + (b1 - 128)) :: ·)
        else none
      | [] => none
    else if 224 ≤ b && b ≤ 239 then
      match bs with
      | b1 :: b2 :: bs2 =>
        if okCont1 b b1 && okCont b2 then
          (utf8DecStrict bs2).map
            (((b - 224) * 4096 + (b1 - 128) * 64 + (b2 - 128)) :: ·)
        else none
      | _ => none
    else if 240 ≤ b && b ≤ 244 then
      match bs with
      | b1 :: b2 :: b3 :: bs3 =>
        if okCont1 b b1 && okCont b2 && okCont b3 then
          (utf8DecStrict bs3).map
            (((b - 240) * 262144 + (b1 - 128) * 4096 + (b2 - 128) * 64 + (b3 - 128)) :: ·)
        else none
      | _ => none
    else none

/-- Fuel-driven worker for UTF-8 decoding with replacement.  Every recursive
call consumes at least one byte, so fuel equal to the byte count plus one
never runs out; the fuel only makes the recursion structural. -/
def utf8ReplaceFuel : Nat → List Nat → List Nat
  | 0, _ => []
  | fuel + 1, l =>
    match l with
    | [] => []
    | b :: bs =>
      if b ≤ 127 then b :: utf8ReplaceFuel fuel bs
      else if 194 ≤ b && b ≤ 223 then
        match bs with
        | b1 :: bs1 =>
          if okCont b1 then ((b - 192) * 64 + (b1 - 128)) :: utf8ReplaceFuel fuel bs1
          else 65533 :: utf8ReplaceFuel fuel (b1 :: bs1)
        | [] => [65533]
      else if 224 ≤ b && b ≤ 239 then
        match bs with
        | b1 :: bs1 =>
          if okCont1 b b1 then
            match bs1 with
            | b2 :: bs2 =>
              if okCont b2 then
                ((b - 224) * 4096 + (b1 - 128) * 64 + (b2 - 128)) :: utf8ReplaceFuel fuel bs2
              else 65533 :: utf8ReplaceFuel fuel (b2 :: bs2)
            | [] => [65533]
          else 65533 :: utf8ReplaceFuel fuel (b1 :: bs1)
        | [] => [65533]
      else if 240 ≤ b && b ≤ 244 then
        match bs with
        | b1 :: bs1 =>
          if okCont1 b b1 then
            match bs1 with
            | b2 :: bs2 =>
              if okCont b2 then
                match bs2 with
                | b3 :: bs3 =>
                  if okCont b3 then
                    ((b - 240) * 262144 + (b1 - 128) * 4096 + (b2 - 128) * 64 + (b3 - 128))
                      :: utf8ReplaceFuel fuel bs3
                  else 65533 :: utf8ReplaceFuel fuel (b3 :: bs3)
                | [] => [65533]
              else 65533 :: utf8ReplaceFuel fuel (b2 :: bs2)
            | [] => [65533]
          else 65533 :: utf8ReplaceFuel fuel (b1 :: bs1)
        | [] => [65533]
      else 65533 :: utf8ReplaceFuel fuel bs

/-- UTF-8 decoding with replacement (Python bytes.decode with utf-8 and
replace errors): each maximal invalid subpart becomes one U+FFFD and decoding
resumes at the first byte not consumed by the partial sequence. -/
def utf8DecReplace (l : List Nat) : List Nat := utf8ReplaceFuel (l.length + 1) l

/-- A codec: a strict decoder that can fail and a replacement-mode decoder
that always succeeds.  The gbk, gb2312 and big5 codecs used by the source
live in the Python codec library outside this repository and are passed as
parameters of this shape. -/
structure Codec where
  decStrict : List Nat → Option (List Nat)
  decReplace : List Nat → List Nat

/-- The utf-8 codec. -/
def utf8Codec : Codec := ⟨utf8DecStrict, utf8DecReplace⟩

/-- The latin1 codec: total, every byte is its own code point. -/
def latin1Codec : Codec := ⟨fun bs => some bs, fun bs => bs⟩

/-- A degenerate stand-in codec whose strict decoder always fails, usable
where a theorem quantifies over the external CJK codecs. -/
def failCodec : Codec := ⟨fun _ => none, fun _ => []⟩

/-- The fallback list tried by _copy_file_with_encoding when the detector
confidence is below 0.7, in source order. -/
def fallback_codecs (gbk gb2312 big5 : Codec) : List Codec :=
  [utf8Codec, gbk, gb2312, big5, latin1Codec]

/-- The decode pipeline of _copy_file_with_encoding for a text file, given
the chardet result (guess codec and confidence) and the raw bytes: empty
input is written out as the empty string; otherwise, when confidence is below
0.7, the first codec of the fallback list whose strict decode succeeds
replaces the guess; the selected codec then decodes the bytes in replacement
mode (decode with errors equal to replace). -/
def decode_for_copy (gbk gb2312 big5 : Codec) (guess : Codec)
    (confidence : Rat) (raw : List Nat) : List Nat :=
  if raw = [] then []
  else
    let enc :=
      if confidence < 7 / 10 then
        match (fallback_codecs gbk gb2312 big5).find? (fun c => (c.decStrict raw).isSome) with
        | some c => c
        | none => guess
      else guess
    enc.decReplace raw

/-- Claim C2 as stated, at the given detector output and bytes: with
confidence at least 0.7 the bytes are decoded strictly with the guess (no
replacement substitution); below 0.7 the first fallback codec that strictly
decodes provides the result; only when every fallback fails strictly is the
guess used in replacement mode. -/
def claimC2At (gbk gb2312 big5 guess : Codec) (confidence : Rat)
    (raw : List Nat) : Prop :=
  raw ≠ [] →
  ((7 / 10 ≤ confidence →
      ∃ out, guess.decStrict raw = some out ∧
        decode_for_copy gbk gb2312 big5 guess confidence raw = out) ∧
   (confidence < 7 / 10 →
      ∀ c, (fallback_codecs gbk gb2312 big5).find? (fun c => (c.decStrict raw).isSome) = some c →
        ∃ out, c.decStrict raw = some out ∧
          decode_for_copy gbk gb2312 big5 guess confidence raw = out) ∧
   (confidence < 7 / 10 →
      (fallback_codecs gbk gb2312 big5).find? (fun c => (c.decStrict raw).isSome) = none →
        decode_for_copy gbk gb2312 big5 guess confidence raw = guess.decReplace raw))

/-! Monitor model: EnhancedFileMonitor._check_file_changes over a snapshot. -/

/-- The final path component (the part after the last slash). -/
def basenameOf (p : Path) : Path :=
  (p.reverse.takeWhile (fun c => decide (c ≠ '/'))).reverse

/-- pathlib suffix of a name: from the last dot on, provided that dot is
neither the first nor the last character; empty otherwise. -/
def suffixOf (name : Path) : Path :=
  match name.reverse.findIdx? (fun c => c = '.') with
  | none => []
  | some j =>
    let i := name.length - 1 - j
    if 0 < i ∧ i < name.length - 1 then name.drop i else []

/-- pathlib with_suffix applied with the txt suffix: the suffix of the final
component is removed and txt is appended. -/
def withSuffixTxt (p : Path) : Path :=
  let suf := suffixOf (basenameOf p)
  p.take (p.length - suf.length) ++ ".txt".toList

/-- EnhancedFileMonitor._get_target_path.  The text classification is the
outcome of _is_text_file for the path in the current snapshot, supplied by
the caller; the source evaluates it at call time, even when the file has just
been deleted.  A path not under the source root falls back to its basename. -/
def target_path (sourceRoot targetRoot : Path) (isText : Bool) (p : Path) : Path :=
  let rel := if (sourceRoot ++ ['/']).isPrefixOf p then p.drop (sourceRoot.length + 1)
             else basenameOf p
  if isText then targetRoot ++ '/' :: withSuffixTxt rel
  else targetRoot ++ '/' :: rel

/-- One source file as the scan observes it: path and stat signature parts.
The stat mtime (a float) is modelled as an integer; signatures are only ever
compared for equality. -/
structure SrcFile where
  path : Path
  mtime : Int
  size : Nat
deriving DecidableEq, Repr

/-- The filesystem snapshot a poll cycle runs against: the files and
directories _scan_directory returns, plus the path-indexed observations the
cycle makes (text classification, copy success, directory stats). -/
structure ScanEnv where
  sourceRoot : Path
  targetRoot : Path
  files : List SrcFile
  dirs : List Path
  isText : Path → Bool
  copyOk : Path → Bool
  dirExists : Path → Bool
  dirSize : Path → Nat

/-- The stat signature (mtime, size) of a path in the snapshot, as
_get_file_state returns it: none when the path is not there. -/
def sigOf (env : ScanEnv) (p : Path) : Option (Int × Nat) :=
  (env.files.find? (fun f => f.path = p)).map (fun f => (f.mtime, f.size))

/-- The tree-side filesystem observations induced by the snapshot. -/
def envTreeFs (env : ScanEnv) : TreeFs where
  pexists p := (env.files.find? (fun f => f.path = p)).isSome
  fileSize p := ((env.files.find? (fun f => f.path = p)).map SrcFile.size).getD 0
  isText := env.isText
  dirExists := env.dirExists
  dirSize := env.dirSize

/-- The persistent state of EnhancedFileMonitor plus the tree state it owns:
the signature map, the tree_data map with its decay clock, the bounded
file_changes buffer, the set of files existing under the target root, and
the synced counter. -/
structure MonitorState where
  file_states : List (Path × (Int × Nat))
  tree : List (Path × Node)
  changes : List Event
  mirror : List Path
  synced : Nat
  last_update : Int
deriving DecidableEq, Repr

/-- Adding a written file to the target-side set. -/
def mirrorAdd (m : List Path) (p : Path) : List Path :=
  if m.contains p then m else m ++ [p]

/-- Unlinking a file from the target-side set. -/
def mirrorDel (m : List Path) (p : Path) : List Path :=
  m.filter (fun q => decide (q ≠ p))

/-- Accumulator for the three passes of one _check_file_changes run. -/
structure CycleAcc where
  fs : List (Path × (Int × Nat))
  tree : List (Path × Node)
  mirror : List Path
  emitted : List Event
  attempts : List Path
  synced : Nat
deriving DecidableEq, Repr

/-- The new-file pass body: the stat signature is recorded first (the stat
succeeds in the snapshot, so the if state guard holds), then the copy is
attempted; only a successful copy appends the new event, creates the target
file and bumps the synced counter. -/
def newStep (env : ScanEnv) (a : CycleAcc) (f : SrcFile) : CycleAcc :=
  let tgt := target_path env.sourceRoot env.targetRoot (env.isText f.path) f.path
  let a1 := { a with fs := mset a.fs f.path (f.mtime, f.size),
                     attempts := a.attempts ++ [f.path] }
  if env.copyOk f.path then
    { a1 with mirror := mirrorAdd a1.mirror tgt,
              emitted := a1.emitted ++ [⟨.new, f.path⟩],
              synced := a1.synced + 1 }
  else a1

/-- The deleted pass body: the signature entry is removed, the target path is
computed from the current (post-deletion) classification of the path, an
existing file there is unlinked, the deleted event is appended
unconditionally, and the tree node is removed when present. -/
def delStep (env : ScanEnv) (a : CycleAcc) (p : Path) : CycleAcc :=
  let tgt := target_path env.sourceRoot env.targetRoot (env.isText p) p
  let a1 := { a with fs := merase a.fs p }
  let a2 := if a1.mirror.contains tgt then { a1 with mirror := mirrorDel a1.mirror tgt } else a1
  { a2 with emitted := a2.emitted ++ [⟨.deleted, p⟩],
            tree := if (look a2.tree p).isSome then merase a2.tree p else a2.tree }

/-- The modified pass body: runs over every current file; when the snapshot
signature differs from the recorded one (or none is recorded) the signature
is recorded first and the copy attempted; only a successful copy appends the
modified event, rewrites the target file and bumps the synced counter. -/
def modStep (env : ScanEnv) (a : CycleAcc) (f : SrcFile) : CycleAcc :=
  if look a.fs f.path ≠ some (f.mtime, f.size) then
    let tgt := target_path env.sourceRoot env.targetRoot (env.isText f.path) f.path
    let a1 := { a with fs := mset a.fs f.path (f.mtime, f.size),
                       attempts := a.attempts ++ [f.path] }
    if env.copyOk f.path then
      { a1 with mirror := mirrorAdd a1.mirror tgt,
                emitted := a1.emitted ++ [⟨.modified, f.path⟩],
                synced := a1.synced + 1 }
    else a1
  else a

/-- The result of one poll cycle: the new persistent state, the events this
cycle appended to the buffer, and the paths whose copy was attempted. -/
structure CycleOut where
  state : MonitorState
  emitted : List Event
  attempts : List Path
deriving DecidableEq, Repr

/-- tree_data after the directory pass of _check_file_changes: every scanned
directory upserted with a normal status. -/
def cycle_tree0 (env : ScanEnv) (st : MonitorState) : List (Path × Node) :=
  env.dirs.foldl (fun t d => mset t d ⟨.dir, 0, .normal, true⟩) st.tree

/-- tree_data after the current-file pass: every current file upserted with
its snapshot size, normal status and current text classification. -/
def cycle_tree1 (env : ScanEnv) (st : MonitorState) : List (Path × Node) :=
  env.files.foldl
    (fun t f => mset t f.path ⟨.file, f.size, .normal, env.isText f.path⟩)
    (cycle_tree0 env st)

/-- new_files: current files whose path has no recorded signature. -/
def cycle_newFiles (env : ScanEnv) (st : MonitorState) : List SrcFile :=
  env.files.filter (fun f => !((mkeys st.file_states).contains f.path))

/-- deleted_files: recorded paths that the scan no longer observes. -/
def cycle_delPaths (env : ScanEnv) (st : MonitorState) : List Path :=
  (mkeys st.file_states).filter (fun p => !((env.files.map SrcFile.path).contains p))

/-- The accumulator at the start of the three passes. -/
def cycle_a0 (env : ScanEnv) (st : MonitorState) : CycleAcc :=
  ⟨st.file_states, cycle_tree1 env st, st.mirror, [], [], st.synced⟩

/-- The accumulator after the new-file pass. -/
def cycle_a1 (env : ScanEnv) (st : MonitorState) : CycleAcc :=
  (cycle_newFiles env st).foldl (newStep env) (cycle_a0 env st)

/-- The accumulator after the deleted pass. -/
def cycle_a2 (env : ScanEnv) (st : MonitorState) : CycleAcc :=
  (cycle_delPaths env st).foldl (delStep env) (cycle_a1 env st)

/-- The accumulator after the modified pass. -/
def cycle_a3 (env : ScanEnv) (st : MonitorState) : CycleAcc :=
  env.files.foldl (modStep env) (cycle_a2 env st)

/-- EnhancedFileMonitor._check_file_changes, one poll cycle against the given
snapshot, in source order: directory nodes, current-file nodes (status
normal), the new-file pass (current paths minus previous signature keys),
the deleted pass (previous keys minus current paths), the modified pass over
all current files, then RealTimeDirectoryTree.update_tree over the whole
persistent file_changes buffer followed by its trim to the last 10 entries. -/
def check_file_changes (env : ScanEnv) (st : MonitorState) (now : Int) : CycleOut :=
  let a3 := cycle_a3 env st
  let allChanges := st.changes ++ a3.emitted
  let tl := update_tree (envTreeFs env) a3.tree st.last_update allChanges now
  let trimmed :=
    if 10 < allChanges.length then allChanges.drop (allChanges.length - 10) else allChanges
  { state := { file_states := a3.fs, tree := tl.1, changes := trimmed,
               mirror := a3.mirror, synced := a3.synced, last_update := tl.2 },
    emitted := a3.emitted, attempts := a3.attempts }

/-- Scratch environment for evaluation tests: one file at /s/b.txt with
signature (2, 7), everything classified text, copies succeeding. -/
def scratchEnv : ScanEnv :=
  ⟨"/s".toList, "/t".toList, [⟨"/s/b.txt".toList, 2, 7⟩], [],
   fun _ => true, fun _ => true, fun _ => false, fun _ => 0⟩

/-- Scratch previous state: the same path recorded with signature (1, 5). -/
def scratchSt : MonitorState :=
  ⟨[("/s/b.txt".toList, (1, 5))],
   [("/s/b.txt".toList, ⟨.file, 5, .normal, true⟩)],
   [], ["/t/b.txt".toList], 0, 0⟩

example :
    (check_file_changes scratchEnv scratchSt 1).emitted
      = [⟨.modified, "/s/b.txt".toList⟩] := by decide

example :
    look (check_file_changes scratchEnv scratchSt 1).state.file_states "/s/b.txt".toList
      = some (2, 7) := by decide

/-! Association-map lemmas. -/

theorem look_cons {V : Type} (k1 : Path) (v1 : V) (rest : List (Path × V))
    (k : Path) :
    look ((k1, v1) :: rest) k = if k1 = k then some v1 else look rest k := rfl

theorem look_mset_self {V : Type} (m : List (Path × V)) (k : Path) (v : V) :
    look (mset m k v) k = some v := by
  induction m with
  | nil => simp [mset, look_cons, look]
  | cons kv rest ih =>
    obtain ⟨k1, v1⟩ := kv
    by_cases hk : k1 = k
    · simp [mset, hk, look_cons]
    · simp [mset, hk, look_cons, ih]

theorem look_mset_ne {V : Type} (m : List (Path × V)) (k k' : Path) (v : V)
    (hne : k' ≠ k) : look (mset m k v) k' = look m k' := by
  have hkk : k ≠ k' := fun h => hne h.symm
  induction m with
  | nil => simp [mset, look_cons, look, hkk]
  | cons kv rest ih =>
    obtain ⟨k1, v1⟩ := kv
    by_cases hk : k1 = k
    · subst hk
      simp [mset, look_cons, hkk, fun h : k1 = k' => hkk h]
    · simp [mset, hk, look_cons, ih]

theorem look_merase_self {V : Type} (m : List (Path × V)) (k : Path) :
    look (merase m k) k = none := by
  induction m with
  | nil => simp [merase, look]
  | cons kv rest ih =>
    obtain ⟨k1, v1⟩ := kv
    by_cases hk : k1 = k
    · simp [merase, hk, ih]
    · simp [merase, hk, look_cons, ih]

theorem look_merase_ne {V : Type} (m : List (Path × V)) (k k' : Path)
    (hne : k' ≠ k) : look (merase m k) k' = look m k' := by
  induction m with
  | nil => simp [merase]
  | cons kv rest ih =>
    obtain ⟨k1, v1⟩ := kv
    by_cases hk : k1 = k
    · subst hk
      have hne1 : k1 ≠ k' := fun h => hne h.symm
      simp [merase, look_cons, hne1, ih]
    · simp [merase, hk, look_cons, ih]

theorem mkeys_cons {V : Type} (k1 : Path) (v1 : V) (rest : List (Path × V)) :
    mkeys ((k1, v1) :: rest) = k1 :: mkeys rest := rfl

theorem mkeys_contains_eq {V : Type} (m : List (Path × V)) (k : Path) :
    (mkeys m).contains k = (look m k).isSome := by
  induction m with
  | nil => rfl
  | cons kv rest ih =>
    obtain ⟨k1, v1⟩ := kv
    rw [mkeys_cons, List.contains_cons, look_cons]
    by_cases hk : k1 = k
    · subst hk
      rw [if_pos rfl]
      simp
    · have hne : (k == k1) = false := by
        rw [beq_eq_false_iff_ne]
        exact fun h => hk h.symm
      rw [if_neg hk, hne, Bool.false_or, ih]

theorem mem_mkeys_iff {V : Type} (m : List (Path × V)) (k : Path) :
    k ∈ mkeys m ↔ (look m k).isSome := by
  induction m with
  | nil =>
    constructor
    · intro h
      exact absurd h (List.not_mem_nil k)
    · intro h
      rw [show look ([] : List (Path × V)) k = none from rfl] at h
      exact absurd h (by simp)
  | cons kv rest ih =>
    obtain ⟨k1, v1⟩ := kv
    rw [mkeys_cons, look_cons]
    by_cases hk : k1 = k
    · subst hk
      rw [if_pos rfl]
      simp [List.mem_cons]
    · rw [if_neg hk, List.mem_cons]
      constructor
      · rintro (h | h)
        · exact absurd h.symm hk
        · exact ih.mp h
      · intro h
        exact Or.inr (ih.mpr h)

/-! Step equations for the three passes of a cycle. -/

theorem newStep_fs (env : ScanEnv) (a : CycleAcc) (f : SrcFile) :
    (newStep env a f).fs = mset a.fs f.path (f.mtime, f.size) := by
  unfold newStep
  split <;> rfl

theorem newStep_tree (env : ScanEnv) (a : CycleAcc) (f : SrcFile) :
    (newStep env a f).tree = a.tree := by
  unfold newStep
  split <;> rfl

theorem newStep_emitted (env : ScanEnv) (a : CycleAcc) (f : SrcFile) :
    (newStep env a f).emitted
      = a.emitted ++ (if env.copyOk f.path then [(⟨.new, f.path⟩ : Event)] else []) := by
  unfold newStep
  by_cases hc : env.copyOk f.path
  · simp [hc]
  · simp [hc]

theorem newStep_attempts (env : ScanEnv) (a : CycleAcc) (f : SrcFile) :
    (newStep env a f).attempts = a.attempts ++ [f.path] := by
  unfold newStep
  split <;> rfl

theorem delStep_fs (env : ScanEnv) (a : CycleAcc) (p : Path) :
    (delStep env a p).fs = merase a.fs p := by
  unfold delStep
  by_cases hm : target_path env.sourceRoot env.targetRoot (env.isText p) p ∈ a.mirror
  · simp [hm]
  · simp [hm]

theorem delStep_tree (env : ScanEnv) (a : CycleAcc) (p : Path) :
    (delStep env a p).tree
      = if (look a.tree p).isSome then merase a.tree p else a.tree := by
  unfold delStep
  by_cases hm : target_path env.sourceRoot env.targetRoot (env.isText p) p ∈ a.mirror
  · simp [hm]
  · simp [hm]

theorem delStep_emitted (env : ScanEnv) (a : CycleAcc) (p : Path) :
    (delStep env a p).emitted = a.emitted ++ [(⟨.deleted, p⟩ : Event)] := by
  unfold delStep
  by_cases hm : target_path env.sourceRoot env.targetRoot (env.isText p) p ∈ a.mirror
  · simp [hm]
  · simp [hm]

theorem delStep_attempts (env : ScanEnv) (a : CycleAcc) (p : Path) :
    (delStep env a p).attempts = a.attempts := by
  unfold delStep
  by_cases hm : target_path env.sourceRoot env.targetRoot (env.isText p) p ∈ a.mirror
  · simp [hm]
  · simp [hm]

theorem modStep_fs (env : ScanEnv) (a : CycleAcc) (f : SrcFile) :
    (modStep env a f).fs =
      if look a.fs f.path = some (f.mtime, f.size) then a.fs
      else mset a.fs f.path (f.mtime, f.size) := by
  unfold modStep
  by_cases h : look a.fs f.path = some (f.mtime, f.size)
  · simp [h]
  · by_cases hc : env.copyOk f.path
    · simp [h, hc]
    · simp [h, hc]

theorem modStep_tree (env : ScanEnv) (a : CycleAcc) (f : SrcFile) :
    (modStep env a f).tree = a.tree := by
  unfold modStep
  by_cases h : look a.fs f.path = some (f.mtime, f.size)
  · simp [h]
  · by_cases hc : env.copyOk f.path
    · simp [h, hc]
    · simp [h, hc]

theorem modStep_emitted (env : ScanEnv) (a : CycleAcc) (f : SrcFile) :
    (modStep env a f).emitted
      = a.emitted ++
        (if look a.fs f.path ≠ some (f.mtime, f.size) ∧ env.copyOk f.path = true
         then [(⟨.modified, f.path⟩ : Event)] else []) := by
  unfold modStep
  by_cases h : look a.fs f.path = some (f.mtime, f.size)
  · simp [h]
  · by_cases hc : env.copyOk f.path
    · simp [h, hc]
    · simp [h, hc]

theorem modStep_attempts (env : ScanEnv) (a : CycleAcc) (f : SrcFile) :
    (modStep env a f).attempts
      = a.attempts ++
        (if look a.fs f.path ≠ some (f.mtime, f.size) then [f.path] else []) := by
  unfold modStep
  by_cases h : look a.fs f.path = some (f.mtime, f.size)
  · simp [h]
  · by_cases hc : env.copyOk f.path
    · simp [h, hc]
    · simp [h, hc]

theorem modStep_fs_look_self (env : ScanEnv) (a : CycleAcc) (f : SrcFile) :
    look (modStep env a f).fs f.path = some (f.mtime, f.size) := by
  rw [modStep_fs]
  split
  · assumption
  · exact look_mset_self _ _ _

/-! Fold lemmas for the three passes. -/

theorem foldl_newStep_tree (env : ScanEnv) (l : List SrcFile) :
    ∀ a : CycleAcc, (l.foldl (newStep env) a).tree = a.tree := by
  induction l with
  | nil => intro a; rfl
  | cons f rest ih =>
    intro a
    rw [List.foldl_cons, ih, newStep_tree]

theorem foldl_modStep_tree (env : ScanEnv) (l : List SrcFile) :
    ∀ a : CycleAcc, (l.foldl (modStep env) a).tree = a.tree := by
  induction l with
  | nil => intro a; rfl
  | cons f rest ih =>
    intro a
    rw [List.foldl_cons, ih, modStep_tree]

theorem foldl_newStep_fs_not (env : ScanEnv) (l : List SrcFile) :
    ∀ (a : CycleAcc) (p : Path), (∀ f ∈ l, f.path ≠ p) →
      look (l.foldl (newStep env) a).fs p = look a.fs p := by
  induction l with
  | nil => intro a p _; rfl
  | cons f rest ih =>
    intro a p hp
    rw [List.foldl_cons, ih _ _ (fun g hg => hp g (List.mem_cons_of_mem f hg)),
      newStep_fs, look_mset_ne _ _ _ _ (fun h => hp f (List.mem_cons_self f rest) h.symm)]

theorem foldl_modStep_fs_not (env : ScanEnv) (l : List SrcFile) :
    ∀ (a : CycleAcc) (p : Path), (∀ f ∈ l, f.path ≠ p) →
      look (l.foldl (modStep env) a).fs p = look a.fs p := by
  induction l with
  | nil => intro a p _; rfl
  | cons f rest ih =>
    intro a p hp
    rw [List.foldl_cons, ih _ _ (fun g hg => hp g (List.mem_cons_of_mem f hg)), modStep_fs]
    split
    · rfl
    · exact look_mset_ne _ _ _ _ (fun h => hp f (List.mem_cons_self f rest) h.symm)

theorem foldl_newStep_fs_mem (env : ScanEnv) (l : List SrcFile) :
    ∀ (a : CycleAcc) (f : SrcFile), f ∈ l → (l.map SrcFile.path).Nodup →
      look (l.foldl (newStep env) a).fs f.path = some (f.mtime, f.size) := by
  induction l with
  | nil => intro a f hf _; cases hf
  | cons g rest ih =>
    intro a f hf hnd
    rw [List.foldl_cons]
    rcases List.mem_cons.mp hf with h | h
    · subst h
      have hrest : ∀ g2 ∈ rest, g2.path ≠ f.path := by
        intro g2 hg2 heq
        exact (List.nodup_cons.mp hnd).1 (heq ▸ List.mem_map_of_mem SrcFile.path hg2)
      rw [foldl_newStep_fs_not env rest _ _ hrest, newStep_fs, look_mset_self]
    · exact ih _ f h ((List.nodup_cons.mp hnd).2)

theorem foldl_modStep_fs_mem (env : ScanEnv) (l : List SrcFile) :
    ∀ (a : CycleAcc) (f : SrcFile), f ∈ l → (l.map SrcFile.path).Nodup →
      look (l.foldl (modStep env) a).fs f.path = some (f.mtime, f.size) := by
  induction l with
  | nil => intro a f hf _; cases hf
  | cons g rest ih =>
    intro a f hf hnd
    rw [List.foldl_cons]
    rcases List.mem_cons.mp hf with h | h
    · subst h
      have hrest : ∀ g2 ∈ rest, g2.path ≠ f.path := by
        intro g2 hg2 heq
        exact (List.nodup_cons.mp hnd).1 (heq ▸ List.mem_map_of_mem SrcFile.path hg2)
      rw [foldl_modStep_fs_not env rest _ _ hrest, modStep_fs_look_self]
    · exact ih _ f h ((List.nodup_cons.mp hnd).2)

theorem foldl_delStep_fs_not (env : ScanEnv) (l : List Path) :
    ∀ (a : CycleAcc) (p : Path), p ∉ l →
      look (l.foldl (delStep env) a).fs p = look a.fs p := by
  induction l with
  | nil => intro a p _; rfl
  | cons q rest ih =>
    intro a p hp
    have hpq : p ≠ q := fun h => hp (by rw [h]; exact List.mem_cons_self q rest)
    rw [List.foldl_cons, ih _ _ (fun h => hp (List.mem_cons_of_mem q h)), delStep_fs,
      look_merase_ne _ _ _ hpq]

theorem foldl_delStep_fs_none (env : ScanEnv) (l : List Path) :
    ∀ (a : CycleAcc) (p : Path), look a.fs p = none →
      look (l.foldl (delStep env) a).fs p = none := by
  induction l with
  | nil => intro a p h0; exact h0
  | cons q rest ih =>
    intro a p h0
    rw [List.foldl_cons]
    refine ih _ _ ?_
    rw [delStep_fs]
    by_cases hq : p = q
    · subst hq
      exact look_merase_self _ _
    · rw [look_merase_ne _ _ _ hq]
      exact h0

theorem foldl_delStep_fs_mem (env : ScanEnv) (l : List Path) :
    ∀ (a : CycleAcc) (p : Path), p ∈ l →
      look (l.foldl (delStep env) a).fs p = none := by
  induction l with
  | nil => intro a p hp; cases hp
  | cons q rest ih =>
    intro a p hp
    rw [List.foldl_cons]
    by_cases hq : p ∈ rest
    · exact ih _ _ hq
    · have hpq : p = q := by
        rcases List.mem_cons.mp hp with h | h
        · exact h
        · exact absurd h hq
      subst hpq
      refine foldl_delStep_fs_none env rest _ p ?_
      rw [delStep_fs]
      exact look_merase_self _ _

theorem foldl_newStep_emitted (env : ScanEnv) (l : List SrcFile) :
    ∀ a : CycleAcc, (l.foldl (newStep env) a).emitted
      = a.emitted ++ (l.filter (fun f => env.copyOk f.path)).map
          (fun f => (⟨.new, f.path⟩ : Event)) := by
  induction l with
  | nil => intro a; simp
  | cons f rest ih =>
    intro a
    rw [List.foldl_cons, ih, newStep_emitted, List.filter_cons]
    by_cases hc : env.copyOk f.path
    · simp [hc]
    · simp [hc]

theorem foldl_newStep_attempts (env : ScanEnv) (l : List SrcFile) :
    ∀ a : CycleAcc, (l.foldl (newStep env) a).attempts
      = a.attempts ++ l.map SrcFile.path := by
  induction l with
  | nil => intro a; simp
  | cons f rest ih =>
    intro a
    rw [List.foldl_cons, ih, newStep_attempts]
    simp

theorem foldl_delStep_emitted (env : ScanEnv) (l : List Path) :
    ∀ a : CycleAcc, (l.foldl (delStep env) a).emitted
      = a.emitted ++ l.map (fun p => (⟨.deleted, p⟩ : Event)) := by
  induction l with
  | nil => intro a; simp
  | cons q rest ih =>
    intro a
    rw [List.foldl_cons, ih, delStep_emitted]
    simp

theorem foldl_delStep_attempts (env : ScanEnv) (l : List Path) :
    ∀ a : CycleAcc, (l.foldl (delStep env) a).attempts = a.attempts := by
  induction l with
  | nil => intro a; rfl
  | cons q rest ih =>
    intro a
    rw [List.foldl_cons, ih, delStep_attempts]

theorem foldl_modStep_emitted (env : ScanEnv) (l : List SrcFile) :
    ∀ a : CycleAcc, (l.map SrcFile.path).Nodup →
      (l.foldl (modStep env) a).emitted
        = a.emitted ++ (l.filter (fun f =>
            decide (look a.fs f.path ≠ some (f.mtime, f.size)) && env.copyOk f.path)).map
            (fun f => (⟨.modified, f.path⟩ : Event)) := by
  induction l with
  | nil => intro a _; simp
  | cons f rest ih =>
    intro a hnd
    have hnotin : f.path ∉ rest.map SrcFile.path := (List.nodup_cons.mp hnd).1
    rw [List.foldl_cons, ih _ ((List.nodup_cons.mp hnd).2)]
    have hfs : ∀ g ∈ rest,
        look (modStep env a f).fs g.path = look a.fs g.path := by
      intro g hg
      rw [modStep_fs]
      split
      · rfl
      · exact look_mset_ne _ _ _ _
          (fun h => hnotin (h ▸ List.mem_map_of_mem SrcFile.path hg))
    rw [List.filter_congr (fun g hg => by rw [hfs g hg])]
    rw [modStep_emitted, List.filter_cons]
    by_cases h1 : look a.fs f.path ≠ some (f.mtime, f.size)
    · by_cases h2 : env.copyOk f.path
      · rw [if_pos ⟨h1, h2⟩]
        simp [h1, h2]
      · rw [if_neg (fun hand => h2 hand.2)]
        simp [h1, h2]
    · rw [if_neg (fun hand => h1 hand.1)]
      simp [h1]

theorem foldl_modStep_attempts (env : ScanEnv) (l : List SrcFile) :
    ∀ a : CycleAcc, (l.map SrcFile.path).Nodup →
      (l.foldl (modStep env) a).attempts
        = a.attempts ++ (l.filter (fun f =>
            decide (look a.fs f.path ≠ some (f.mtime, f.size)))).map SrcFile.path := by
  induction l with
  | nil => intro a _; simp
  | cons f rest ih =>
    intro a hnd
    have hnotin : f.path ∉ rest.map SrcFile.path := (List.nodup_cons.mp hnd).1
    rw [List.foldl_cons, ih _ ((List.nodup_cons.mp hnd).2)]
    have hfs : ∀ g ∈ rest,
        look (modStep env a f).fs g.path = look a.fs g.path := by
      intro g hg
      rw [modStep_fs]
      split
      · rfl
      · exact look_mset_ne _ _ _ _
          (fun h => hnotin (h ▸ List.mem_map_of_mem SrcFile.path hg))
    rw [List.filter_congr (fun g hg => by rw [hfs g hg])]
    rw [modStep_attempts, List.filter_cons]
    by_cases h1 : look a.fs f.path ≠ some (f.mtime, f.size)
    · rw [if_pos h1]
      simp [h1]
    · rw [if_neg h1]
      simp [h1]

theorem foldl_modStep_noop (env : ScanEnv) (l : List SrcFile) (a : CycleAcc)
    (h : ∀ f ∈ l, look a.fs f.path = some (f.mtime, f.size)) :
    l.foldl (modStep env) a = a := by
  induction l with
  | nil => rfl
  | cons f rest ih =>
    have hstep : modStep env a f = a := by
      unfold modStep
      rw [if_neg (fun hne => hne (h f (List.mem_cons_self f rest)))]
    rw [List.foldl_cons, hstep]
    exact ih (fun g hg => h g (List.mem_cons_of_mem f hg))

/-! Cycle-level lemmas. -/

theorem path_contains_iff (l : List Path) (p : Path) :
    l.contains p = true ↔ p ∈ l := List.elem_iff

theorem check_state_fs (env : ScanEnv) (st : MonitorState) (now : Int) :
    (check_file_changes env st now).state.file_states = (cycle_a3 env st).fs := rfl

theorem check_emitted_eq (env : ScanEnv) (st : MonitorState) (now : Int) :
    (check_file_changes env st now).emitted = (cycle_a3 env st).emitted := rfl

theorem check_attempts_eq (env : ScanEnv) (st : MonitorState) (now : Int) :
    (check_file_changes env st now).attempts = (cycle_a3 env st).attempts := rfl

/-- After a cycle, every scanned file has its snapshot signature recorded,
whether or not its copy succeeded. -/
theorem cycle_fs_look (env : ScanEnv) (st : MonitorState) (f : SrcFile)
    (hf : f ∈ env.files) (hnd : (env.files.map SrcFile.path).Nodup) :
    look (cycle_a3 env st).fs f.path = some (f.mtime, f.size) :=
  foldl_modStep_fs_mem env env.files _ f hf hnd

/-- After a cycle, paths the scan did not observe have no recorded
signature. -/
theorem cycle_fs_dom (env : ScanEnv) (st : MonitorState) (p : Path)
    (hp : p ∉ env.files.map SrcFile.path) :
    look (cycle_a3 env st).fs p = none := by
  have hne : ∀ f ∈ env.files, f.path ≠ p := by
    intro f hf heq
    exact hp (heq ▸ List.mem_map_of_mem SrcFile.path hf)
  unfold cycle_a3
  rw [foldl_modStep_fs_not env env.files _ _ hne]
  by_cases hmem : (look st.file_states p).isSome
  · have hprev : p ∈ mkeys st.file_states := (mem_mkeys_iff _ _).mpr hmem
    have hcont : (env.files.map SrcFile.path).contains p = false := by
      rcases h : (env.files.map SrcFile.path).contains p with _ | _
      · rfl
      · exact absurd ((path_contains_iff _ _).mp h) hp
    have hdel : p ∈ cycle_delPaths env st := by
      unfold cycle_delPaths
      rw [List.mem_filter]
      exact ⟨hprev, by rw [hcont]; rfl⟩
    exact foldl_delStep_fs_mem env _ _ p hdel
  · have h0 : look st.file_states p = none := by
      rcases h : look st.file_states p with _ | v
      · rfl
      · rw [h] at hmem
        exact absurd rfl hmem
    unfold cycle_a2
    refine foldl_delStep_fs_none env _ _ p ?_
    unfold cycle_a1
    rw [foldl_newStep_fs_not env _ _ p ?_]
    · exact h0
    · intro f hf heq
      exact hne f (List.mem_filter.mp hf).1 heq

/-- With an unchanged snapshot, the cycle after a cycle finds no new files. -/
theorem cycle_newFiles_next (env : ScanEnv) (st : MonitorState) (now : Int)
    (hnd : (env.files.map SrcFile.path).Nodup) :
    cycle_newFiles env (check_file_changes env st now).state = [] := by
  unfold cycle_newFiles
  rw [List.filter_eq_nil_iff]
  intro f hf
  rw [check_state_fs, mkeys_contains_eq, cycle_fs_look env st f hf hnd]
  simp

/-- With an unchanged snapshot, the cycle after a cycle finds no deleted
paths. -/
theorem cycle_delPaths_next (env : ScanEnv) (st : MonitorState) (now : Int) :
    cycle_delPaths env (check_file_changes env st now).state = [] := by
  unfold cycle_delPaths
  rw [List.filter_eq_nil_iff]
  intro p hp
  rw [check_state_fs] at hp
  have hcur : p ∈ env.files.map SrcFile.path := by
    by_contra hnc
    have hnone := cycle_fs_dom env st p hnc
    rw [mem_mkeys_iff, hnone] at hp
    exact absurd hp (by simp)
  have : (env.files.map SrcFile.path).contains p = true :=
    (path_contains_iff _ _).mpr hcur
  rw [this]
  simp

/-- With an unchanged snapshot, a second cycle is a no-op at the accumulator
level: no events, no copy attempts, and the signature map unchanged. -/
theorem cycle_stable (env : ScanEnv) (st : MonitorState) (now now2 : Int)
    (hnd : (env.files.map SrcFile.path).Nodup) :
    (check_file_changes env (check_file_changes env st now).state now2).emitted = []
    ∧ (check_file_changes env (check_file_changes env st now).state now2).attempts = [] := by
  have hfix : cycle_a3 env (check_file_changes env st now).state
      = cycle_a0 env (check_file_changes env st now).state := by
    unfold cycle_a3 cycle_a2 cycle_a1
    rw [cycle_delPaths_next env st now, cycle_newFiles_next env st now hnd]
    rw [List.foldl_nil, List.foldl_nil]
    refine foldl_modStep_noop env env.files _ ?_
    intro f hf
    show look (check_file_changes env st now).state.file_states f.path = _
    rw [check_state_fs]
    exact cycle_fs_look env st f hf hnd
  rw [check_emitted_eq, check_attempts_eq, hfix]
  exact ⟨rfl, rfl⟩

/-- Events appended by the new-file pass. -/
theorem cycle_a1_emitted (env : ScanEnv) (st : MonitorState) :
    (cycle_a1 env st).emitted
      = ((cycle_newFiles env st).filter (fun f => env.copyOk f.path)).map
          (fun f => (⟨.new, f.path⟩ : Event)) := by
  unfold cycle_a1
  rw [foldl_newStep_emitted]
  show ([] : List Event) ++ _ = _
  rw [List.nil_append]

/-- Events after the deleted pass. -/
theorem cycle_a2_emitted (env : ScanEnv) (st : MonitorState) :
    (cycle_a2 env st).emitted
      = (cycle_a1 env st).emitted
        ++ (cycle_delPaths env st).map (fun p => (⟨.deleted, p⟩ : Event)) :=
  foldl_delStep_emitted env _ _

/-- Events after the modified pass; the pass compares each current file
against the signature map as it stands after the new and deleted passes. -/
theorem cycle_a3_emitted (env : ScanEnv) (st : MonitorState)
    (hnd : (env.files.map SrcFile.path).Nodup) :
    (cycle_a3 env st).emitted
      = (cycle_a2 env st).emitted
        ++ (env.files.filter (fun f =>
            decide (look (cycle_a2 env st).fs f.path ≠ some (f.mtime, f.size))
              && env.copyOk f.path)).map (fun f => (⟨.modified, f.path⟩ : Event)) :=
  foldl_modStep_emitted env env.files _ hnd

/-- A path that is both currently scanned and already recorded keeps its
recorded signature through the new and deleted passes. -/
theorem cycle_a2_fs_prev (env : ScanEnv) (st : MonitorState) (p : Path)
    (hcur : p ∈ env.files.map SrcFile.path)
    (hprev : (look st.file_states p).isSome) :
    look (cycle_a2 env st).fs p = look st.file_states p := by
  unfold cycle_a2
  have hdel : p ∉ cycle_delPaths env st := by
    intro hmem
    have hcond := (List.mem_filter.mp hmem).2
    rw [(path_contains_iff _ _).mpr hcur] at hcond
    exact absurd hcond (by simp)
  rw [foldl_delStep_fs_not env _ _ p hdel]
  unfold cycle_a1
  rw [foldl_newStep_fs_not env _ _ p ?_]
  · rfl
  · intro f hf heq
    have hcond := (List.mem_filter.mp hf).2
    rw [heq, mkeys_contains_eq, hprev] at hcond
    exact absurd hcond (by simp)

/-! String lemmas for the filename abbreviation. -/

theorem splitDot_no_dot (l : List Char) (h : ∀ c ∈ l, c ≠ '.') :
    splitDot l = [l] := by
  induction l with
  | nil => rfl
  | cons c rest ih =>
    have hc : c ≠ '.' := h c (List.mem_cons_self c rest)
    rw [splitDot]
    simp only [hc, if_false]
    rw [ih (fun c2 hc2 => h c2 (List.mem_cons_of_mem c hc2))]

theorem splitDot_append (l rest : List Char) (h : ∀ c ∈ l, c ≠ '.') :
    splitDot (l ++ '.' :: rest) = l :: splitDot rest := by
  induction l with
  | nil =>
    rw [List.nil_append, splitDot]
    simp
  | cons c l2 ih =>
    have hc : c ≠ '.' := h c (List.mem_cons_self c l2)
    rw [List.cons_append, splitDot]
    simp only [hc, if_false]
    rw [ih (fun c2 hc2 => h c2 (List.mem_cons_of_mem c hc2))]

theorem hex_ne_dot (c : Char) (h : isHexChar c = true) : c ≠ '.' := by
  intro hc
  subst hc
  exact absurd h (by decide)

/-- The abbreviation computed by _format_filename for a hash-like name with a
dot-free extension segment. -/
theorem format_filename_hash (base ex : List Char) (hlen : 20 ≤ base.length)
    (hhex : base.all isHexChar = true) (hex2 : ∀ c ∈ ex, c ≠ '.')
    (hne : ex ≠ []) :
    format_filename (base ++ '.' :: ex)
      = '[' :: (base.take 3 ++ (']' :: '.' :: ex)) := by
  have hbd : ∀ c ∈ base, c ≠ '.' := by
    intro c hc
    exact hex_ne_dot c (List.all_eq_true.mp hhex c hc)
  have hsplit : splitDot (base ++ '.' :: ex) = base :: splitDot ex :=
    splitDot_append base ex hbd
  have hsplit2 : splitDot ex = [ex] := splitDot_no_dot ex hex2
  have hbne : base ≠ [] := by
    intro h0
    rw [h0] at hlen
    exact absurd hlen (by decide)
  have hbe : base.isEmpty = false := by
    rcases base with _ | ⟨c, b2⟩
    · exact absurd rfl hbne
    · rfl
  have hhash : is_hash_filename (base ++ '.' :: ex) = true := by
    unfold is_hash_filename
    rw [hsplit]
    simp only [List.headD_cons, hbe]
    simp [hlen, hhex]
  have hcontains : (base ++ '.' :: ex).contains '.' = true := by
    rw [List.contains_eq_any_beq, List.any_eq_true]
    exact ⟨'.', List.mem_append_right base (List.mem_cons_self '.' ex), rfl⟩
  have hexne : ex.isEmpty = false := by
    rcases ex with _ | ⟨c, ex2⟩
    · exact absurd rfl hne
    · rfl
  have h3 : 3 ≤ base.length := le_trans (by decide) hlen
  unfold format_filename
  rw [hhash]
  simp only [if_true, hsplit, hsplit2, List.headD_cons, hcontains,
    List.length_cons, List.length_singleton, List.getD_cons_succ,
    List.getD_cons_zero, Bool.true_and, hexne, Bool.not_false, h3, if_pos]
  have hib : decide (1 < ([] : List (List Char)).length + 1 + 1) = true := by decide
  rw [hib]
  simp only [if_true, hexne, Bool.not_false, if_pos rfl]
  simp

/-! Decay lemma for the tree update. -/

theorem look_map_decay (t : List (Path × Node)) (p : Path) :
    look (t.map (fun kv => (kv.1, decay_status kv.2))) p
      = (look t p).map decay_status := by
  induction t with
  | nil => rfl
  | cons kv rest ih =>
    obtain ⟨k1, v1⟩ := kv
    by_cases hk : k1 = p
    · simp [look_cons, hk]
    · simp [look_cons, hk, ih]

/-! Claim theorems. -/

/-- C6: for every filesystem state, running two consecutive scan cycles with
no filesystem change between them produces zero change events (no new, no
deleted, no modified) on the second cycle. -/
theorem c6_second_cycle_no_events (env : ScanEnv) (st : MonitorState)
    (now now2 : Int) (hnd : (env.files.map SrcFile.path).Nodup) :
    (check_file_changes env (check_file_changes env st now).state now2).emitted = [] :=
  (cycle_stable env st now now2 hnd).1

/-- Witness for C6 at a concrete one-file snapshot. -/
theorem c6_second_cycle_no_events_witness :
    (check_file_changes scratchEnv (check_file_changes scratchEnv scratchSt 1).state 3).emitted
      = [] :=
  c6_second_cycle_no_events scratchEnv scratchSt 1 3 (by decide)

/-- C8: a file whose base name is 40 hexadecimal characters with a .log
extension renders with the display name given by the first three hex
characters in square brackets followed by .log. -/
theorem c8_hash_log_display (base : List Char) (hlen : base.length = 40)
    (hhex : base.all isHexChar = true) :
    format_filename (base ++ ".log".toList)
      = '[' :: (base.take 3 ++ "].log".toList) := by
  rw [show (".log".toList : List Char) = '.' :: "log".toList from rfl]
  rw [format_filename_hash base "log".toList (by rw [hlen]; decide) hhex
    (by decide) (by decide)]
  rfl

/-- Witness for C8 at a concrete 40-hex name. -/
theorem c8_hash_log_display_witness :
    format_filename ("0123456789abcdef0123456789abcdef01234567".toList ++ ".log".toList)
      = '[' :: ("0123456789abcdef0123456789abcdef01234567".toList.take 3 ++ "].log".toList) :=
  c8_hash_log_display "0123456789abcdef0123456789abcdef01234567".toList
    (by decide) (by decide)

/-- C10: a zero-length file whose extension is not allow-listed and whose
MIME guess is not a text type is classified binary rather than failing: the
empty sample would divide by zero in the printable-ratio computation and the
surrounding handler maps the exception to false. -/
theorem c10_empty_file_binary (ext : List Char) (mime : Option (List Char))
    (h1 : text_extensions.contains (ext.map Char.toLower) = false)
    (h2 : mime_says_text mime = false) :
    is_text_file ext mime (some []) = false := by
  unfold is_text_file
  simp only [h1, h2, Bool.false_eq_true, if_false]
  rfl

/-- Witness for C10 at a concrete non-text extension. -/
theorem c10_empty_file_binary_witness :
    is_text_file ".dat".toList none (some []) = false :=
  c10_empty_file_binary ".dat".toList none (by decide) rfl

/-- C4 counterexample: a five-byte sample with exactly eighty percent
printable bytes (and no NUL, extension and MIME non-text) is classified
binary by the code, while the claim, reading the threshold inclusively,
classifies it text. -/
theorem c4_boundary_counterexample :
    is_text_file ".dat".toList none (some [65, 65, 65, 65, 200]) = false
    ∧ spec_is_text ".dat".toList none (some [65, 65, 65, 65, 200]) = true
    ∧ is_text_file ".dat".toList none (some [65, 65, 65, 65, 200])
        ≠ spec_is_text ".dat".toList none (some [65, 65, 65, 65, 200]) := by
  refine ⟨by decide, by decide, by decide⟩

/-- C4 amended: the classifier returns true exactly when the extension is
allow-listed, or the MIME guess starts with text/, or the non-empty sample
of the first 1024 bytes has no NUL byte and STRICTLY more than eighty
percent printable bytes; any I/O error yields false. -/
theorem c4_classifier_matches_strict_spec (ext : List Char)
    (mime : Option (List Char)) (content : Option (List Nat)) :
    is_text_file ext mime content = spec_is_text_strict ext mime content := by
  unfold is_text_file spec_is_text_strict
  by_cases h1 : (ext.map Char.toLower) ∈ text_extensions
  · simp [h1, path_contains_iff]
  · by_cases h2 : mime_says_text mime
    · simp [h1, h2, path_contains_iff]
    · rcases content with _ | bytes
      · simp [h1, h2, path_contains_iff]
      · by_cases h3 : (0 : Nat) ∈ bytes.take 1024
        · simp [h1, h2, h3, path_contains_iff, List.isEmpty_iff]
        · by_cases h4 : bytes = []
          · subst h4
            simp [h1, h2, path_contains_iff, List.isEmpty_iff]
          · simp [h1, h2, h3, h4, path_contains_iff, List.isEmpty_iff,
              List.take_eq_nil_iff]

/-- C2 counterexample: with detector confidence 0.9 and bytes that are not
valid UTF-8, the code substitutes the replacement character instead of
decoding strictly with the guess, so the claim fails at this input. -/
theorem c2_strict_decode_counterexample :
    decode_for_copy failCodec failCodec failCodec utf8Codec (9 / 10) [195] = [65533]
    ∧ ¬ claimC2At failCodec failCodec failCodec utf8Codec (9 / 10) [195] := by
  have hconf : ¬ ((9 : Rat) / 10 < 7 / 10) := by norm_num
  have hdec : decode_for_copy failCodec failCodec failCodec utf8Codec (9 / 10) [195]
      = [65533] := by
    unfold decode_for_copy
    rw [if_neg (by decide : ¬ ([195] : List Nat) = [])]
    rw [if_neg hconf]
    rfl
  refine ⟨hdec, ?_⟩
  intro h
  obtain ⟨h1, _, _⟩ := h (by decide)
  obtain ⟨out, hstrict, _⟩ := h1 (by norm_num)
  rw [show utf8Codec.decStrict = utf8DecStrict from rfl,
    show utf8DecStrict [195] = none by decide] at hstrict
  exact Option.noConfusion hstrict

/-- C2 amended: the final decode always runs in replacement mode with the
selected codec.  With confidence at least 0.7 the guess is selected (its
replacement decode, which equals the strict decode only when the bytes are
valid); below 0.7 the first of utf-8, gbk, gb2312, big5, latin1 that
strictly decodes is selected, and the result then agrees with that strict
decode; when none succeeds strictly the guess is used in replacement mode. -/
theorem c2_decode_pipeline (gbk gb2312 big5 guess : Codec) (confidence : Rat)
    (raw : List Nat) (hraw : ¬ raw = []) :
    (¬ confidence < 7 / 10 →
      decode_for_copy gbk gb2312 big5 guess confidence raw = guess.decReplace raw)
    ∧ (confidence < 7 / 10 →
      ∀ c, (fallback_codecs gbk gb2312 big5).find?
          (fun c => (c.decStrict raw).isSome) = some c →
        ∀ out, c.decStrict raw = some out → c.decReplace raw = out →
          decode_for_copy gbk gb2312 big5 guess confidence raw = out)
    ∧ (confidence < 7 / 10 →
      (fallback_codecs gbk gb2312 big5).find?
          (fun c => (c.decStrict raw).isSome) = none →
        decode_for_copy gbk gb2312 big5 guess confidence raw
          = guess.decReplace raw) := by
  unfold decode_for_copy
  rw [if_neg hraw]
  refine ⟨?_, ?_, ?_⟩
  · intro hc
    rw [if_neg hc]
  · intro hc c hfind out hstrict hrep
    rw [if_pos hc, hfind]
    exact hrep
  · intro hc hfind
    rw [if_pos hc, hfind]

/-- Witness for C2 at concrete low-confidence ASCII input, where utf-8 is the
first strictly succeeding fallback. -/
theorem c2_decode_pipeline_witness :
    decode_for_copy failCodec failCodec failCodec latin1Codec (1 / 2) [65] = [65] :=
  (c2_decode_pipeline failCodec failCodec failCodec latin1Codec (1 / 2) [65]
    (by decide)).2.1 (by norm_num) utf8Codec rfl [65] rfl rfl

/-- Environment for the copy-failure scenario: one file at /s/a.txt with a
changed signature, whose copy always fails. -/
def failEnv : ScanEnv :=
  ⟨"/s".toList, "/t".toList, [⟨"/s/a.txt".toList, 2, 7⟩], [],
   fun _ => true, fun _ => false, fun _ => false, fun _ => 0⟩

/-- A recorded signature (1, 5) for /s/a.txt, mirrored at /t/a.txt. -/
def failSt : MonitorState :=
  ⟨[("/s/a.txt".toList, (1, 5))],
   [("/s/a.txt".toList, ⟨.file, 5, .normal, true⟩)],
   [], ["/t/a.txt".toList], 0, 0⟩

/-- C1 counterexample: the modified file is detected, its copy fails, yet the
new signature (2, 7) is recorded anyway, so the next cycle with an unchanged
filesystem neither re-detects the path nor attempts another copy. -/
theorem c1_failed_copy_not_retried :
    (check_file_changes failEnv failSt 1).attempts = ["/s/a.txt".toList]
    ∧ (check_file_changes failEnv failSt 1).emitted = []
    ∧ look (check_file_changes failEnv failSt 1).state.file_states "/s/a.txt".toList
        = some (2, 7)
    ∧ (check_file_changes failEnv (check_file_changes failEnv failSt 1).state 3).attempts = []
    ∧ (check_file_changes failEnv (check_file_changes failEnv failSt 1).state 3).emitted
        = [] := by
  refine ⟨by decide, by decide, by decide, by decide, by decide⟩

/-- C1 amended: for every new or modified file the (mtime, size) signature is
recorded at detection time, before and regardless of the copy outcome; a
failed copy only suppresses the change event, and with an unchanged
filesystem the next cycle emits no event and attempts no copy, so the failed
copy is not retried. -/
theorem c1_signature_recorded_before_copy (env : ScanEnv) (st : MonitorState)
    (now now2 : Int) (hnd : (env.files.map SrcFile.path).Nodup) :
    (∀ f ∈ env.files,
      look (check_file_changes env st now).state.file_states f.path
        = some (f.mtime, f.size))
    ∧ (∀ f ∈ env.files, env.copyOk f.path = false →
        (⟨.new, f.path⟩ : Event) ∉ (check_file_changes env st now).emitted
        ∧ (⟨.modified, f.path⟩ : Event) ∉ (check_file_changes env st now).emitted)
    ∧ (check_file_changes env (check_file_changes env st now).state now2).emitted = []
    ∧ (check_file_changes env (check_file_changes env st now).state now2).attempts
        = [] := by
  refine ⟨?_, ?_, (cycle_stable env st now now2 hnd).1,
    (cycle_stable env st now now2 hnd).2⟩
  · intro f hf
    rw [check_state_fs]
    exact cycle_fs_look env st f hf hnd
  · intro f hf hcopy
    rw [check_emitted_eq, cycle_a3_emitted env st hnd, cycle_a2_emitted,
      cycle_a1_emitted]
    constructor
    · intro hmem
      rcases List.mem_append.mp hmem with hm | hm
      · rcases List.mem_append.mp hm with hm2 | hm2
        · obtain ⟨g, hg, hev⟩ := List.mem_map.mp hm2
          have hpath : g.path = f.path := congrArg Event.path hev
          have hok := (List.mem_filter.mp hg).2
          rw [hpath, hcopy] at hok
          exact Bool.noConfusion hok
        · obtain ⟨p, hp, hev⟩ := List.mem_map.mp hm2
          exact EvKind.noConfusion (congrArg Event.kind hev)
      · obtain ⟨g, hg, hev⟩ := List.mem_map.mp hm
        exact EvKind.noConfusion (congrArg Event.kind hev)
    · intro hmem
      rcases List.mem_append.mp hmem with hm | hm
      · rcases List.mem_append.mp hm with hm2 | hm2
        · obtain ⟨g, hg, hev⟩ := List.mem_map.mp hm2
          exact EvKind.noConfusion (congrArg Event.kind hev)
        · obtain ⟨p, hp, hev⟩ := List.mem_map.mp hm2
          exact EvKind.noConfusion (congrArg Event.kind hev)
      · obtain ⟨g, hg, hev⟩ := List.mem_map.mp hm
        have hpath : g.path = f.path := congrArg Event.path hev
        have hok := (Bool.and_eq_true _ _ |>.mp (List.mem_filter.mp hg).2).2
        rw [hpath, hcopy] at hok
        exact Bool.noConfusion hok

/-- Witness for C1 at the copy-failure scenario. -/
theorem c1_signature_recorded_before_copy_witness :
    look (check_file_changes failEnv failSt 1).state.file_states "/s/a.txt".toList
      = some (2, 7) :=
  (c1_signature_recorded_before_copy failEnv failSt 1 3 (by decide)).1
    ⟨"/s/a.txt".toList, 2, 7⟩ (by decide)

/-- C3 counterexample: /s/b.txt was deleted and a different /s/b.txt created
between the two polls (previous signature (1, 5), present signature (2, 7));
the cycle emits a single modified event for the path and neither a deleted
nor a new event, contradicting the claim. -/
theorem c3_same_path_rename_counterexample :
    (⟨.modified, "/s/b.txt".toList⟩ : Event)
        ∈ (check_file_changes scratchEnv scratchSt 1).emitted
    ∧ (⟨.deleted, "/s/b.txt".toList⟩ : Event)
        ∉ (check_file_changes scratchEnv scratchSt 1).emitted
    ∧ (⟨.new, "/s/b.txt".toList⟩ : Event)
        ∉ (check_file_changes scratchEnv scratchSt 1).emitted := by
  refine ⟨by decide, by decide, by decide⟩

/-- The modified-pass event list contains no event for a path that no listed
file has. -/
theorem modEv_count_zero (l : List SrcFile) (p : Path) (cond : SrcFile → Bool)
    (hp : ∀ g ∈ l, g.path ≠ p) :
    ((l.filter cond).map (fun g => (⟨.modified, g.path⟩ : Event))).count
      (⟨.modified, p⟩ : Event) = 0 := by
  rw [List.count_eq_zero]
  intro hmem
  obtain ⟨g, hg, hev⟩ := List.mem_map.mp hmem
  exact hp g (List.mem_filter.mp hg).1 (congrArg Event.path hev)

/-- Exact multiplicity of a path's modified event in the modified-pass event
list: with duplicate-free scan paths, the unique file at the path contributes
one event when it passes the filter and none otherwise. -/
theorem modEv_count (l : List SrcFile) :
    ∀ (p : Path) (cond : SrcFile → Bool), (l.map SrcFile.path).Nodup →
    ∀ f : SrcFile, f ∈ l → f.path = p →
    ((l.filter cond).map (fun g => (⟨.modified, g.path⟩ : Event))).count
      (⟨.modified, p⟩ : Event) = if cond f then 1 else 0 := by
  induction l with
  | nil => intro p cond _ f hf _; cases hf
  | cons g rest ih =>
    intro p cond hnd f hf hpf
    have hnotin : g.path ∉ rest.map SrcFile.path := (List.nodup_cons.mp hnd).1
    by_cases hgp : g.path = p
    · have hfg : f = g := by
        rcases List.mem_cons.mp hf with h | h
        · exact h
        · exfalso
          apply hnotin
          rw [hgp, ← hpf]
          exact List.mem_map_of_mem SrcFile.path h
      subst hfg
      have hrestne : ∀ g2 ∈ rest, g2.path ≠ p := by
        intro g2 hg2 heq
        apply hnotin
        rw [hpf, ← heq]
        exact List.mem_map_of_mem SrcFile.path hg2
      rw [List.filter_cons]
      by_cases hcond : cond f
      · rw [if_pos hcond, List.map_cons, List.count_cons,
          modEv_count_zero rest p cond hrestne, if_pos hcond, hpf]
        simp
      · rw [if_neg hcond, if_neg hcond]
        exact modEv_count_zero rest p cond hrestne
    · have hf2 : f ∈ rest := by
        rcases List.mem_cons.mp hf with h | h
        · exfalso
          apply hgp
          rw [← h]
          exact hpf
        · exact h
      have hres := ih p cond (List.nodup_cons.mp hnd).2 f hf2 hpf
      rw [List.filter_cons]
      by_cases hcond : cond g
      · rw [if_pos hcond, List.map_cons, List.count_cons, hres]
        have hne : ¬ ((⟨.modified, g.path⟩ : Event) == (⟨.modified, p⟩ : Event)) = true := by
          rw [beq_iff_eq]
          intro hev
          exact hgp (congrArg Event.path hev)
        simp [hne]
      · rw [if_neg hcond]
        exact hres

/-- C3 amended: when a file is deleted and a different file created at the
same path between two polls, the next cycle observes the path as present in
both scans, so it never emits a deleted or a new event for that path; it
emits exactly one modified event for the path when the new (mtime, size)
signature differs from the recorded one and the copy succeeds, and no event
at all for the path otherwise (signatures coinciding, or the copy failing). -/
theorem c3_same_path_rename_is_modified (env : ScanEnv) (st : MonitorState)
    (now : Int) (hnd : (env.files.map SrcFile.path).Nodup)
    (f : SrcFile) (hf : f ∈ env.files) (s1 : Int × Nat)
    (hprev : look st.file_states f.path = some s1) :
    ((check_file_changes env st now).emitted.count (⟨.modified, f.path⟩ : Event)
        = if s1 ≠ (f.mtime, f.size) ∧ env.copyOk f.path = true then 1 else 0)
    ∧ (⟨.deleted, f.path⟩ : Event) ∉ (check_file_changes env st now).emitted
    ∧ (⟨.new, f.path⟩ : Event) ∉ (check_file_changes env st now).emitted := by
  have hcur : f.path ∈ env.files.map SrcFile.path :=
    List.mem_map_of_mem SrcFile.path hf
  have hprevS : (look st.file_states f.path).isSome := by
    rw [hprev]
    rfl
  have ha2 : look (cycle_a2 env st).fs f.path = some s1 :=
    (cycle_a2_fs_prev env st f.path hcur hprevS).trans hprev
  rw [check_emitted_eq, cycle_a3_emitted env st hnd, cycle_a2_emitted,
    cycle_a1_emitted]
  refine ⟨?_, ?_, ?_⟩
  · rw [List.count_append, List.count_append]
    have hnew0 : (((cycle_newFiles env st).filter (fun g => env.copyOk g.path)).map
        (fun g => (⟨.new, g.path⟩ : Event))).count (⟨.modified, f.path⟩ : Event) = 0 := by
      rw [List.count_eq_zero]
      intro hmem
      obtain ⟨g, hg, hev⟩ := List.mem_map.mp hmem
      exact EvKind.noConfusion (congrArg Event.kind hev)
    have hdel0 : ((cycle_delPaths env st).map
        (fun p => (⟨.deleted, p⟩ : Event))).count (⟨.modified, f.path⟩ : Event) = 0 := by
      rw [List.count_eq_zero]
      intro hmem
      obtain ⟨p, hp, hev⟩ := List.mem_map.mp hmem
      exact EvKind.noConfusion (congrArg Event.kind hev)
    rw [hnew0, hdel0, modEv_count env.files f.path _ hnd f hf rfl]
    by_cases h1 : s1 = (f.mtime, f.size)
    · simp [ha2, h1]
    · by_cases h2 : env.copyOk f.path
      · simp [ha2, h1, h2]
      · simp [ha2, h1, h2]
  · intro hmem
    rcases List.mem_append.mp hmem with hm | hm
    · rcases List.mem_append.mp hm with hm2 | hm2
      · obtain ⟨g, hg, hev⟩ := List.mem_map.mp hm2
        exact EvKind.noConfusion (congrArg Event.kind hev)
      · obtain ⟨p, hp, hev⟩ := List.mem_map.mp hm2
        have hpath : p = f.path := congrArg Event.path hev
        subst hpath
        have hcond := (List.mem_filter.mp hp).2
        rw [(path_contains_iff _ _).mpr hcur] at hcond
        exact absurd hcond (by simp)
    · obtain ⟨g, hg, hev⟩ := List.mem_map.mp hm
      exact EvKind.noConfusion (congrArg Event.kind hev)
  · intro hmem
    rcases List.mem_append.mp hmem with hm | hm
    · rcases List.mem_append.mp hm with hm2 | hm2
      · obtain ⟨g, hg, hev⟩ := List.mem_map.mp hm2
        have hpath : g.path = f.path := congrArg Event.path hev
        have hcond := (List.mem_filter.mp (List.mem_filter.mp hg).1).2
        rw [hpath, mkeys_contains_eq, hprevS] at hcond
        exact absurd hcond (by simp)
      · obtain ⟨p, hp, hev⟩ := List.mem_map.mp hm2
        exact EvKind.noConfusion (congrArg Event.kind hev)
    · obtain ⟨g, hg, hev⟩ := List.mem_map.mp hm
      exact EvKind.noConfusion (congrArg Event.kind hev)

/-- Scratch state whose recorded signature equals the snapshot signature, for
the signatures-coincide arm of the C3 witness. -/
def scratchStSame : MonitorState :=
  ⟨[("/s/b.txt".toList, (2, 7))],
   [("/s/b.txt".toList, ⟨.file, 7, .normal, true⟩)],
   [], ["/t/b.txt".toList], 0, 0⟩

/-- Witness for C3: at the same-path recreate scenario with a differing
signature there is exactly one modified event and no deleted or new event;
with coinciding signatures there is no modified event either. -/
theorem c3_same_path_rename_is_modified_witness :
    (check_file_changes scratchEnv scratchSt 2).emitted.count
        (⟨.modified, "/s/b.txt".toList⟩ : Event) = 1
    ∧ (⟨.deleted, "/s/b.txt".toList⟩ : Event)
        ∉ (check_file_changes scratchEnv scratchSt 2).emitted
    ∧ (⟨.new, "/s/b.txt".toList⟩ : Event)
        ∉ (check_file_changes scratchEnv scratchSt 2).emitted
    ∧ (check_file_changes scratchEnv scratchStSame 2).emitted.count
        (⟨.modified, "/s/b.txt".toList⟩ : Event) = 0 := by
  have h1 := c3_same_path_rename_is_modified scratchEnv scratchSt 2 (by decide)
    ⟨"/s/b.txt".toList, 2, 7⟩ (by decide) (1, 5) (by decide)
  have h2 := c3_same_path_rename_is_modified scratchEnv scratchStSame 2 (by decide)
    ⟨"/s/b.txt".toList, 2, 7⟩ (by decide) (2, 7) (by decide)
  exact ⟨h1.1.trans (by decide), h1.2.1, h1.2.2, h2.1.trans (by decide)⟩

/-- Snapshot for the deletion scenario: the extensionless source file
/s/notes has just been deleted; the deletion-time classifier sees no
allow-listed extension, no MIME type and cannot read the absent file, so it
reports binary. -/
def delEnv : ScanEnv :=
  ⟨"/s".toList, "/t".toList, [], [],
   fun p => is_text_file (suffixOf (basenameOf p)) none none,
   fun _ => true, fun _ => false, fun _ => 0⟩

/-- State before the deletion cycle: /s/notes recorded with signature (1, 5)
and mirrored at /t/notes.txt, where the copy wrote it when the file was
still readable and classified text by content sampling. -/
def delSt : MonitorState :=
  ⟨[("/s/notes".toList, (1, 5))],
   [("/s/notes".toList, ⟨.file, 5, .normal, true⟩)],
   [], ["/t/notes.txt".toList], 0, 0⟩

/-- C5 at the failing input: deleting /s/notes removes its tree node and
emits the deleted event, but the mirrored file /t/notes.txt is not deleted,
because the deletion-time target path is computed with the file absent
(classified binary) and resolves to /t/notes, which does not exist. -/
theorem c5_stale_mirror_on_delete :
    target_path "/s".toList "/t".toList true "/s/notes".toList = "/t/notes.txt".toList
    ∧ delEnv.isText "/s/notes".toList = false
    ∧ target_path "/s".toList "/t".toList (delEnv.isText "/s/notes".toList)
        "/s/notes".toList = "/t/notes".toList
    ∧ (check_file_changes delEnv delSt 1).emitted
        = [⟨.deleted, "/s/notes".toList⟩]
    ∧ look (check_file_changes delEnv delSt 1).state.tree "/s/notes".toList = none
    ∧ (check_file_changes delEnv delSt 1).state.mirror = ["/t/notes.txt".toList] := by
  refine ⟨by decide, by decide, by decide, by decide, by decide, by decide⟩

/-- C7: transient statuses decay on the single global 5-second timer.  When
an update runs more than 5 seconds after the last recorded decay, every node
whose status is new or modified reverts to normal in the same update and the
decay time is recorded; otherwise the tree is exactly the
post-change-application tree, so no node is cleared individually by its own
age. -/
theorem c7_global_status_decay (fs : TreeFs) (t : List (Path × Node))
    (last_update : Int) (changes : List Event) (now : Int) :
    (5 < now - last_update →
      (update_tree fs t last_update changes now).2 = now ∧
      ∀ p n,
        look (update_dir_sizes fs (changes.foldl (apply_change fs) t)) p = some n →
        look (update_tree fs t last_update changes now).1 p
          = some (if n.status = .new ∨ n.status = .modified
                  then { n with status := .normal } else n)) ∧
    (¬ 5 < now - last_update →
      (update_tree fs t last_update changes now).1
          = update_dir_sizes fs (changes.foldl (apply_change fs) t) ∧
      (update_tree fs t last_update changes now).2 = last_update) := by
  constructor
  · intro h5
    unfold update_tree
    rw [if_pos h5]
    refine ⟨rfl, ?_⟩
    intro p n hlook
    show look ((update_dir_sizes fs (changes.foldl (apply_change fs) t)).map
        (fun kv => (kv.1, decay_status kv.2))) p = _
    rw [look_map_decay, hlook]
    rfl
  · intro h5
    unfold update_tree
    rw [if_neg h5]
    exact ⟨rfl, rfl⟩

/-- A concrete filesystem oracle for the decay witness: nothing exists. -/
def emptyTreeFs : TreeFs :=
  ⟨fun _ => false, fun _ => 0, fun _ => false, fun _ => false, fun _ => 0⟩

/-- Witness for C7: with 6 seconds elapsed both flagged nodes revert to
normal together; with 4 seconds elapsed the flagged node is kept even though
its own flag is older than 5 seconds of wall time could make it. -/
theorem c7_global_status_decay_witness :
    look ((update_tree emptyTreeFs
        [("/s/p".toList, ⟨.file, 3, .new, true⟩),
         ("/s/q".toList, ⟨.file, 1, .modified, false⟩)] 0 [] 6).1) "/s/p".toList
      = some ⟨.file, 3, .normal, true⟩
    ∧ look ((update_tree emptyTreeFs
        [("/s/p".toList, ⟨.file, 3, .new, true⟩),
         ("/s/q".toList, ⟨.file, 1, .modified, false⟩)] 0 [] 6).1) "/s/q".toList
      = some ⟨.file, 1, .normal, false⟩
    ∧ (update_tree emptyTreeFs
        [("/s/p".toList, ⟨.file, 3, .new, true⟩)] 0 [] 4).1
      = [("/s/p".toList, ⟨.file, 3, .new, true⟩)] := by
  refine ⟨?_, ?_, ?_⟩
  · exact ((c7_global_status_decay emptyTreeFs
      [("/s/p".toList, ⟨.file, 3, .new, true⟩),
       ("/s/q".toList, ⟨.file, 1, .modified, false⟩)] 0 [] 6).1 (by decide)).2
      "/s/p".toList ⟨.file, 3, .new, true⟩ (by decide) |>.trans (by decide)
  · exact ((c7_global_status_decay emptyTreeFs
      [("/s/p".toList, ⟨.file, 3, .new, true⟩),
       ("/s/q".toList, ⟨.file, 1, .modified, false⟩)] 0 [] 6).1 (by decide)).2
      "/s/q".toList ⟨.file, 1, .modified, false⟩ (by decide) |>.trans (by decide)
  · exact ((c7_global_status_decay emptyTreeFs
      [("/s/p".toList, ⟨.file, 3, .new, true⟩)] 0 [] 4).2 (by decide)).1.trans
      (by decide)

/-- C9: the abbreviated bracket display name is applied to every file whose
base name is 20 or more hexadecimal characters, for text files and binary
files alike; the classification only selects the type icon and the content
of the trailing bracketed annotation. -/
theorem c9_hash_abbrev_regardless_of_classification (base ex : List Char)
    (hlen : 20 ≤ base.length) (hhex : base.all isHexChar = true)
    (hex2 : ∀ c ∈ ex, c ≠ '.') (hne : ex ≠ [])
    (t : List (Path × Node)) (pathStr : Path) (sz : Nat) (st2 : Status)
    (b : Bool) (depth : Nat) (is_last : Bool) (pfx : List Char)
    (hlook : look t pathStr = some ⟨.file, sz, st2, b⟩) :
    get_tree_line t pathStr (base ++ '.' :: ex) depth is_last pfx
      = (if depth = 0 then []
         else if is_last then pfx ++ "└─ ".toList else pfx ++ "├─ ".toList)
        ++ statusIcon st2
        ++ (if b then "📄".toList else "🗃️".toList)
        ++ ' ' :: (('[' :: (base.take 3 ++ (']' :: '.' :: ex)))
            ++ ' ' :: ('[' :: ((if b then format_size sz
                else '[' :: (base.take 3 ++ (']' :: '.' :: ex))) ++ [']']))) := by
  unfold get_tree_line
  rw [hlook, format_filename_hash base ex hlen hhex hex2 hne]
  cases b
  · simp
  · simp

/-- Witness for C9: the same hash name renders with the bracket abbreviation
in the display-name slot whether the node is text or binary. -/
theorem c9_hash_abbrev_regardless_witness :
    get_tree_line [("/s/h".toList, ⟨.file, 7, .normal, true⟩)] "/s/h".toList
        ("0123456789abcdef0123".toList ++ '.' :: "bin".toList) 1 true []
      = (if (1 : Nat) = 0 then []
         else if true then ([] : List Char) ++ "└─ ".toList else [] ++ "├─ ".toList)
        ++ statusIcon .normal
        ++ (if true then "📄".toList else "🗃️".toList)
        ++ ' ' :: (('[' :: ("0123456789abcdef0123".toList.take 3 ++ (']' :: '.' :: "bin".toList)))
            ++ ' ' :: ('[' :: ((if true then format_size 7
                else '[' :: ("0123456789abcdef0123".toList.take 3
                  ++ (']' :: '.' :: "bin".toList))) ++ [']'])))
    ∧ get_tree_line [("/s/h".toList, ⟨.file, 7, .normal, false⟩)] "/s/h".toList
        ("0123456789abcdef0123".toList ++ '.' :: "bin".toList) 1 true []
      = (if (1 : Nat) = 0 then []
         else if true then ([] : List Char) ++ "└─ ".toList else [] ++ "├─ ".toList)
        ++ statusIcon .normal
        ++ (if false then "📄".toList else "🗃️".toList)
        ++ ' ' :: (('[' :: ("0123456789abcdef0123".toList.take 3 ++ (']' :: '.' :: "bin".toList)))
            ++ ' ' :: ('[' :: ((if false then format_size 7
                else '[' :: ("0123456789abcdef0123".toList.take 3
                  ++ (']' :: '.' :: "bin".toList))) ++ [']']))) := by
  constructor
  · exact c9_hash_abbrev_regardless_of_classification
      "0123456789abcdef0123".toList "bin".toList (by decide) (by decide)
      (by decide) (by decide) _ _ 7 .normal true 1 true [] (by decide)
  · exact c9_hash_abbrev_regardless_of_classification
      "0123456789abcdef0123".toList "bin".toList (by decide) (by decide)
      (by decide) (by decide) _ _ 7 .normal false 1 true [] (by decide)

example : utf8DecStrict [195] = none := by decide
example : utf8DecStrict [195, 169] = some [233] := by decide
example : utf8DecReplace [195] = [65533] := by decide
example : utf8DecReplace [237, 160, 128] = [65533, 65533, 65533] := by decide
example : utf8DecStrict [224, 160, 128] = some [2048] := by decide
example : utf8DecReplace [240, 144, 40] = [65533, 40] := by decide

example : format_size 0 = "0 B".toList := by decide
example : format_size 5 = "5.0 B".toList := by decide
example : format_size 1536 = "1.5 KB".toList := by decide
example : is_text_file ".py".toList none none = true := by decide
example : is_text_file ".dat".toList none (some [65, 65, 65, 65, 200]) = false := by decide
example : spec_is_text ".dat".toList none (some [65, 65, 65, 65, 200]) = true := by decide
example : is_text_file [] none (some []) = false := by decide
example : format_filename ("aaaaaaaaaaaaaaaaaaaaaaaaaaaaaaaaaaaaaaaa".toList ++ ".log".toList)
    = "[aaa].log".toList := by decide

end Userdata
